import Mathlib

/-!
Verification development for the NC demographic-turnout reconciliation
pipeline (scripts/build_demographic_turnout_all.py, with the
missing-denominator diagnostic of scripts/build_demographic_turnout.py).

The SQL pipeline is embedded shallowly: tables are lists of records, SQL
GROUP BY is modelled by deduplicating the list of group keys and
aggregating over the matching rows, SQL LEFT JOIN is modelled by
flat-mapping each left row to its matches (or to a single null-extended
row), and SQL equality on nullable columns is modelled by a null-rejecting
match on `Option String` values.  Raw-file ingestion (column-position
parsing, trim/replace/upper normalisation) is out of scope per the spec;
the embedding starts from the parsed rows of the tables `ncvhis_raw`
(restricted to one election), `ncvoter_attrs` and `voter_stats_raw`.
Because Lean's built-in `String` library functions do not reduce inside
the kernel, the string operations the pipeline itself performs
(trimming, integer parsing, token replacement, splitting, lexicographic
comparison) are re-implemented here over `List Char` by structural
recursion, mirroring the Python/DuckDB semantics.
-/

/-! ### String utilities (executable stand-ins for Python/DuckDB string ops) -/

/-- Lexicographic strict comparison of character lists by code point,
the binary collation DuckDB uses for `ORDER BY` on VARCHAR. -/
def listLt : List Char → List Char → Bool
  | [], [] => false
  | [], _ :: _ => true
  | _ :: _, [] => false
  | a :: as, b :: bs => if a = b then listLt as bs else decide (a < b)

/-- Strict lexicographic order on strings. -/
def strLtB (a b : String) : Bool := listLt a.data b.data

/-- Reflexive lexicographic order on strings. -/
def strLeB (a b : String) : Bool := strLtB a b || decide (a = b)

/-- The smaller of two strings in the lexicographic order. -/
def strMin (a b : String) : String := if strLeB a b then a else b

/-- Removes leading and trailing whitespace, as Python `strip` / SQL `trim`. -/
def trimChars (l : List Char) : List Char :=
  ((l.dropWhile Char.isWhitespace).reverse.dropWhile Char.isWhitespace).reverse

/-- Parses a non-empty all-digit character list as a natural number. -/
def toNatOpt (l : List Char) : Option Nat :=
  if l = [] then none
  else if l.all Char.isDigit then
    some (l.foldl (fun n c => n * 10 + (c.toNat - 48)) 0)
  else none

/-- Integer parsing of a trimmed string (optional leading minus sign then
digits), the model of DuckDB `TRY_CAST(trim(s) AS INTEGER)`: `none` exactly
when the cast yields NULL. -/
def toIntOpt (s : String) : Option Int :=
  match trimChars s.data with
  | '-' :: rest => (toNatOpt rest).map (fun n => -(n : Int))
  | l => (toNatOpt l).map (fun n => (n : Int))

/-- Boolean test that `p` is an initial segment of `l`. -/
def leadsWith : List Char → List Char → Bool
  | [], _ => true
  | _ :: _, [] => false
  | p :: ps, c :: cs => decide (p = c) && leadsWith ps cs

/-- Fuel-indexed replacement of every occurrence of `pat` by `rep`,
as Python `str.replace`; with `fuel` at least the length of the input the
fuel never runs out. -/
def replaceAllAux (pat rep : List Char) : Nat → List Char → List Char
  | 0, l => l
  | _ + 1, [] => []
  | fuel + 1, c :: cs =>
    if pat ≠ [] ∧ leadsWith pat (c :: cs) then
      rep ++ replaceAllAux pat rep fuel ((c :: cs).drop pat.length)
    else c :: replaceAllAux pat rep fuel cs

/-- Replaces every occurrence of `pat` in `s` by `rep` (Python `s.replace(pat, rep)`). -/
def replaceAllS (s pat rep : String) : String :=
  ⟨replaceAllAux pat.data rep.data s.data.length s.data⟩

/-- Splits on a separator character, accumulating the current chunk. -/
def splitOnCharAux (sep : Char) : List Char → List Char → List (List Char)
  | [], acc => [acc.reverse]
  | c :: cs, acc =>
    if c = sep then acc.reverse :: splitOnCharAux sep cs []
    else splitOnCharAux sep cs (c :: acc)

/-- Splits a string on a separator character, as Python `str.split(sep)`. -/
def splitOnC (sep : Char) (s : String) : List String :=
  (splitOnCharAux sep s.data []).map String.mk

/-- First `n` characters of a string (Python slice `s[:n]`). -/
def takeS (s : String) (n : Nat) : String := ⟨s.data.take n⟩

/-- String without its first `n` characters (Python slice `s[n:]`). -/
def dropS (s : String) (n : Nat) : String := ⟨s.data.drop n⟩

/-- Left-pads with zeros to width 2 (Python `str.zfill(2)`). -/
def zfill2 (s : String) : String :=
  if 2 ≤ s.data.length then s else ⟨List.replicate (2 - s.data.length) '0' ++ s.data⟩

/-- Lower-cases an ASCII letter. -/
def lowerChar (c : Char) : Char :=
  if 'A' ≤ c ∧ c ≤ 'Z' then Char.ofNat (c.toNat + 32) else c

/-- ASCII lower-casing of a string, the model of SQL `lower`. -/
def lowerS (s : String) : String := ⟨s.data.map lowerChar⟩

/-! ### Data model

Rows of the intermediate tables of `build_demographic_turnout_all.py`.
Fields that the loading queries guarantee non-NULL (`ncid` in both core
tables, `election_lbl`) are plain `String`; all other VARCHAR fields are
`Option String` since `null_padding=true` CSV ingestion can produce NULLs. -/

/-- A row of `ncvhis_election` (the vote-event log filtered to one
election): `county_desc`, `election_lbl`, `ncid`. -/
structure HistRow where
  county : String
  lbl : String
  ncid : String
deriving DecidableEq, Repr

/-- A vote-event row projected to the two columns the deduplicator keeps:
`county_desc` and `ncid`. -/
structure VoteRow where
  county : String
  ncid : String
deriving DecidableEq, Repr

/-- A row of `ncvoter_attrs` (the voter-attribute registry). -/
structure RegRow where
  ncid : String
  reg_county : Option String
  party_cd : Option String
  race_code : Option String
  ethnic_code : Option String
  sex_code : Option String
  birth_year : Option String
deriving DecidableEq, Repr

/-- A row of `voted_joined` (deduplicated vote events left-joined to the
registry on `ncid`). -/
structure JoinedRow where
  voted_county : String
  reg_county : Option String
  ncid : String
  party_cd : Option String
  race_code : Option String
  ethnic_code : Option String
  sex_code : Option String
  birth_year : Option String
deriving DecidableEq, Repr

/-- A row of `voter_stats_raw` (the registration census, multi-election
layout): `total_voters` is the result of `TRY_CAST` and is `none` when the
count field failed to parse. -/
structure CensusRow where
  county : Option String
  election_date_raw : Option String
  stats_type : Option String
  party_cd : Option String
  race_code : Option String
  ethnic_code : Option String
  sex_code : Option String
  age_group : Option String
  total_voters : Option Int
deriving DecidableEq, Repr

/-- The 7-column demographic bucket key `(election_date, county_desc,
party_cd, race_code, ethnic_code, sex_code, age_group)` used on both the
numerator and the denominator side. -/
structure BucketKey where
  election_date : String
  county : Option String
  party_cd : Option String
  race_code : Option String
  ethnic_code : Option String
  sex_code : Option String
  age_group : Option String
deriving DecidableEq, Repr

/-- A row of `voter_stats_denominator`. -/
structure DenRow where
  key : BucketKey
  registered_count : Int
deriving DecidableEq, Repr

/-- A row of `voted_aggregated`. -/
structure NumRow where
  key : BucketKey
  voted_count : Nat
deriving DecidableEq, Repr

/-- A row of `turnout_buckets` / `turnout_all`; `turnout_rate` is `none`
for SQL NULL, and the DOUBLE ratio is modelled exactly in `ℚ`. -/
structure TurnoutRow where
  key : BucketKey
  registered_count : Int
  voted_count : Nat
  turnout_rate : Option ℚ
deriving DecidableEq, Repr

/-! ### Vote Event Deduplicator (`voted_ncids`)

`row_number() OVER (PARTITION BY ncid ORDER BY county_desc)`, keeping
`rn = 1`: one row per distinct `ncid`, carrying the lexicographically
smallest `county_desc` of its partition. -/

/-- Smallest string of a list in lexicographic order (`""` for the empty
list, which never arises for a non-empty partition). -/
def minCounty : List String → String
  | [] => ""
  | [c] => c
  | c :: c2 :: cs => strMin c (minCounty (c2 :: cs))

/-- The deduplicator `voted_ncids`: one output row per distinct `ncid` of
the input, keeping the smallest `county_desc` of that `ncid`'s partition
(the row `rn = 1` selects under `ORDER BY county_desc`). -/
def dedupVotes (l : List VoteRow) : List VoteRow :=
  ((l.map VoteRow.ncid).dedup).map (fun x =>
    { county := minCounty ((l.filter (fun r => decide (r.ncid = x))).map VoteRow.county),
      ncid := x })

/-! ### Attribute Joiner and QA (`voted_joined` and the QA query) -/

/-- One left row's contribution to the LEFT JOIN on `ncid`: a row with no
registry match yields one row with all attribute columns NULL; a row with
matches yields one row per matching registry row. -/
def joinRow (attrs : List RegRow) (v : VoteRow) : List JoinedRow :=
  let ms := attrs.filter (fun a => decide (a.ncid = v.ncid))
  if ms.isEmpty then
    [{ voted_county := v.county, reg_county := none, ncid := v.ncid,
       party_cd := none, race_code := none, ethnic_code := none,
       sex_code := none, birth_year := none }]
  else ms.map (fun a =>
    { voted_county := v.county, reg_county := a.reg_county, ncid := v.ncid,
      party_cd := a.party_cd, race_code := a.race_code,
      ethnic_code := a.ethnic_code, sex_code := a.sex_code,
      birth_year := a.birth_year })

/-- The join `voted_ncids LEFT JOIN ncvoter_attrs ON ncid`. -/
def votedJoined (voted : List VoteRow) (attrs : List RegRow) : List JoinedRow :=
  voted.flatMap (joinRow attrs)

/-- QA count `total_voted = COUNT(*)` over `voted_joined`. -/
def totalVoted (j : List JoinedRow) : Nat := j.length

/-- QA count of rows `WHERE reg_county_desc IS NULL`. -/
def joinMismatches (j : List JoinedRow) : Nat :=
  (j.filter (fun r => r.reg_county.isNone)).length

/-- The county-mismatch predicate `reg_county_desc IS NOT NULL AND
voted_county_desc != reg_county_desc`. -/
def countyMismB (r : JoinedRow) : Bool :=
  r.reg_county.isSome && decide (r.reg_county ≠ some r.voted_county)

/-- QA count of matched rows whose cast county differs from the
registered county. -/
def countyMismatches (j : List JoinedRow) : Nat :=
  (j.filter countyMismB).length

/-- `join_mismatch_rate`: Python `(join_mismatches / total_voted) if
total_voted else 0.0`, modelled exactly in `ℚ`. -/
def joinMismatchRate (j : List JoinedRow) : ℚ :=
  if totalVoted j = 0 then 0 else (joinMismatches j : ℚ) / (totalVoted j : ℚ)

/-- `county_mismatch_rate`: Python `county_mismatches / (total_voted -
join_mismatches) if (total_voted - join_mismatches) else 0.0`. -/
def countyMismatchRate (j : List JoinedRow) : ℚ :=
  if totalVoted j - joinMismatches j = 0 then 0
  else (countyMismatches j : ℚ) / ((totalVoted j - joinMismatches j : Nat) : ℚ)

/-! ### Age Bucketizer (the CASE expression of `voted_with_age`) -/

/-- The age-bucket CASE expression: cases evaluated in source order —
NULL or empty birth year, unparseable birth year, age under 18, then the
three closed ranges, else the over-65 bucket. -/
def ageGroupLabel (electionYear : Int) (birthYear : Option String) : String :=
  match birthYear with
  | none => "Age < 18 Or Invalid Birth Dates"
  | some s =>
    if (trimChars s.data).length = 0 then "Age < 18 Or Invalid Birth Dates"
    else
      match toIntOpt s with
      | none => "Age < 18 Or Invalid Birth Dates"
      | some b =>
        if electionYear - b < 18 then "Age < 18 Or Invalid Birth Dates"
        else if 18 ≤ electionYear - b ∧ electionYear - b ≤ 25 then "Age 18 - 25"
        else if 26 ≤ electionYear - b ∧ electionYear - b ≤ 40 then "Age 26 - 40"
        else if 41 ≤ electionYear - b ∧ electionYear - b ≤ 65 then "Age 41 - 65"
        else "Age Over 66"

/-! ### Bucket Aggregator (`voted_clean`, `voted_with_age`, `voted_aggregated`) -/

/-- `voted_clean`: joined rows restricted to `reg_county_desc IS NOT NULL`. -/
def votedClean (j : List JoinedRow) : List JoinedRow :=
  j.filter (fun r => r.reg_county.isSome)

/-- The 7-column group key of a cleaned joined row: the county is the
registered county (never the cast county) and the age group is computed
from the birth year. -/
def numKey (iso : String) (ey : Int) (r : JoinedRow) : BucketKey :=
  { election_date := iso, county := r.reg_county, party_cd := r.party_cd,
    race_code := r.race_code, ethnic_code := r.ethnic_code,
    sex_code := r.sex_code, age_group := some (ageGroupLabel ey r.birth_year) }

/-- `voted_aggregated`: `COUNT(*)` grouped by the 7-column key over the
age-bucketed clean rows. -/
def votedAggregated (iso : String) (ey : Int) (j : List JoinedRow) : List NumRow :=
  let c := votedClean j
  (((c.map (numKey iso ey)).dedup).map (fun k =>
    { key := k, voted_count := (c.filter (fun r => decide (numKey iso ey r = k))).length }))

/-! ### Denominator Builder (`voter_stats_denominator`) -/

/-- The census filter `TRY_CAST(...) IS NOT NULL AND election_date_raw = lbl
AND lower(stats_type) = 'voter'` (SQL equality on a NULL column is false). -/
def censusKeep (lbl : String) (r : CensusRow) : Bool :=
  r.total_voters.isSome && (r.election_date_raw == some lbl)
    && ((r.stats_type.map lowerS) == some "voter")

/-- The 7-column group key of a census row, with the target election's
ISO date as `election_date`. -/
def censusKey (iso : String) (r : CensusRow) : BucketKey :=
  { election_date := iso, county := r.county, party_cd := r.party_cd,
    race_code := r.race_code, ethnic_code := r.ethnic_code,
    sex_code := r.sex_code, age_group := r.age_group }

/-- `voter_stats_denominator`: `SUM(total_voters)` grouped by the 7-column
key over the kept census rows. -/
def voterStatsDenominator (iso lbl : String) (rows : List CensusRow) : List DenRow :=
  let kept := rows.filter (censusKeep lbl)
  ((kept.map (censusKey iso)).dedup).map (fun k =>
    { key := k,
      registered_count :=
        ((kept.filter (fun r => decide (censusKey iso r = k))).map
          (fun r => r.total_voters.getD 0)).sum })

/-! ### Reconciler (`turnout_buckets`) -/

/-- SQL equality on two nullable key columns: true only when both are
non-NULL and equal. -/
def sqlEqB (a b : Option String) : Bool :=
  match a, b with
  | some x, some y => decide (x = y)
  | _, _ => false

/-- The 7-column join predicate of the numerator/denominator LEFT JOIN,
with SQL NULL semantics on the six nullable columns. -/
def keyMatch (d v : BucketKey) : Bool :=
  decide (d.election_date = v.election_date) && sqlEqB d.county v.county
    && sqlEqB d.party_cd v.party_cd && sqlEqB d.race_code v.race_code
    && sqlEqB d.ethnic_code v.ethnic_code && sqlEqB d.sex_code v.sex_code
    && sqlEqB d.age_group v.age_group

/-- A key is total when none of its six nullable columns is NULL; only
total keys can participate in a join match. -/
def keyTotal (k : BucketKey) : Bool :=
  k.county.isSome && k.party_cd.isSome && k.race_code.isSome
    && k.ethnic_code.isSome && k.sex_code.isSome && k.age_group.isSome

/-- A `turnout_buckets` output row built from a denominator row and the
coalesced voted count: `voted_count` defaults to 0, and `turnout_rate` is
NULL when `registered_count = 0` and the exact ratio otherwise. -/
def mkTurnout (d : DenRow) (vc : Nat) : TurnoutRow :=
  { key := d.key, registered_count := d.registered_count, voted_count := vc,
    turnout_rate :=
      if d.registered_count = 0 then none
      else some ((vc : ℚ) / (d.registered_count : ℚ)) }

/-- `turnout_buckets`: the denominator LEFT JOIN the aggregated numerator
on the 7-column key, with `COALESCE(voted_count, 0)` and the
null-guarded rate. -/
def turnoutBuckets (den : List DenRow) (num : List NumRow) : List TurnoutRow :=
  den.flatMap (fun d =>
    let ms := num.filter (fun v => keyMatch d.key v.key)
    if ms.isEmpty then [mkTurnout d 0]
    else ms.map (fun v => mkTurnout d v.voted_count))

/-- The missing-denominator diagnostic of `build_demographic_turnout.py`:
the total `voted_count` of aggregated numerator buckets that match no
denominator bucket. -/
def missingVotes (den : List DenRow) (num : List NumRow) : Nat :=
  ((num.filter (fun v => !(den.any (fun d => keyMatch d.key v.key)))).map
    NumRow.voted_count).sum

/-- The total `voted_count` of a turnout table. -/
def sumVoted (rows : List TurnoutRow) : Nat :=
  (rows.map TurnoutRow.voted_count).sum

/-! ### Multi-Election Controller -/

/-- `yyyymmdd_to_mmddyyyy`: "20251104" becomes "11/04/2025". -/
def yyyymmddToMmddyyyy (s : String) : String :=
  takeS (dropS s 4) 2 ++ "/" ++ takeS (dropS s 6) 2 ++ "/" ++ takeS s 4

/-- `mmddyyyy_to_iso`: "11/04/2025" becomes "2025-11-04".  The source
unpacks exactly three slash-separated parts; other shapes (which never
arise for labels built from an 8-digit token) are modelled by the
identity. -/
def mmddyyyyToIso (s : String) : String :=
  match splitOnC '/' s with
  | [m, d, y] => y ++ "-" ++ zfill2 m ++ "-" ++ zfill2 d
  | _ => s

/-- `int(election_iso.split("-")[0])`; for labels built from an 8-digit
token the year part always parses, the defaulted branch is never hit. -/
def electionYearOf (iso : String) : Int :=
  (toIntOpt ((splitOnC '-' iso).headD "")).getD 0

/-- The controller's file-name check: strip `voter_stats_` and `.txt`
from the base name and accept exactly an 8-digit token, otherwise the
file is skipped. -/
def parseDateToken (base : String) : Option String :=
  let tok := replaceAllS (replaceAllS base "voter_stats_" "") ".txt" ""
  if tok.data.length = 8 ∧ tok.data.all Char.isDigit then some tok else none

/-- One election's full reconciliation, from the date token and the three
parsed inputs: filter the vote-event log to the election label, dedupe,
join, age-bucket, aggregate, build the denominator, reconcile. -/
def electionTurnout (tok : String) (hist : List HistRow) (attrs : List RegRow)
    (census : List CensusRow) : List TurnoutRow :=
  let lbl := yyyymmddToMmddyyyy tok
  let iso := mmddyyyyToIso lbl
  let ey := electionYearOf iso
  let events := (hist.filter (fun h => decide (h.lbl = lbl))).map
    (fun h => ({ county := h.county, ncid := h.ncid } : VoteRow))
  turnoutBuckets (voterStatsDenominator iso lbl census)
    (votedAggregated iso ey (votedJoined (dedupVotes events) attrs))

/-- Strict comparison on nullable sort columns with SQL `NULLS LAST`
placement, DuckDB's default for ascending `ORDER BY`. -/
def optLtB (a b : Option String) : Bool :=
  match a, b with
  | some x, some y => strLtB x y
  | some _, none => true
  | none, _ => false

/-- The seven `ORDER BY` columns of the final export, in order. -/
def fieldsOf (r : TurnoutRow) : List (Option String) :=
  [some r.key.election_date, r.key.county, r.key.party_cd, r.key.race_code,
    r.key.ethnic_code, r.key.sex_code, r.key.age_group]

/-- Lexicographic comparison of sort-column lists. -/
def lexLeB : List (Option String) → List (Option String) → Bool
  | [], _ => true
  | _ :: _, [] => false
  | a :: as, b :: bs => if a = b then lexLeB as bs else optLtB a b

/-- The export ordering `ORDER BY election_date, county_desc, party_cd,
race_code, ethnic_code, sex_code, age_group`. -/
def rowLeB (r s : TurnoutRow) : Bool := lexLeB (fieldsOf r) (fieldsOf s)

/-- Inserts an element into a sorted list in front of the first element
it compares below. -/
def insertLe {α : Type} (le : α → α → Bool) (a : α) : List α → List α
  | [] => [a]
  | b :: l => if le a b then a :: b :: l else b :: insertLe le a l

/-- Insertion sort, the model of Python `sorted` and SQL `ORDER BY`:
any sorting function sound for the comparator models them, and this one
is structurally recursive. -/
def sortByB {α : Type} (le : α → α → Bool) : List α → List α
  | [] => []
  | a :: l => insertLe le a (sortByB le l)

/-- Python `sorted` over the globbed file names. -/
def sortFiles (files : List String) : List String := sortByB strLeB files

/-- The final `ORDER BY` of the combined export. -/
def sortTurnout (rows : List TurnoutRow) : List TurnoutRow := sortByB rowLeB rows

/-- One discovered file's contribution to the combined table: nothing if
its name carries no 8-digit date token (the file is skipped), otherwise
the full reconciliation of the election the token names. -/
def fileTurnout (hist : List HistRow) (attrs : List RegRow)
    (census : String → List CensusRow) (f : String) : List TurnoutRow :=
  match parseDateToken f with
  | none => []
  | some tok => electionTurnout tok hist attrs (census f)

/-- The multi-election controller: abort (`none`, `SystemExit`) when no
census file was discovered; otherwise process the discovered files in
sorted order — skipping any file whose name carries no 8-digit date
token — accumulate every election's turnout rows, and sort the combined
table for export.  `census` maps each file name to its parsed rows. -/
def runAll (files : List String) (hist : List HistRow) (attrs : List RegRow)
    (census : String → List CensusRow) : Option (List TurnoutRow) :=
  if files = [] then none
  else some (sortTurnout ((sortFiles files).flatMap (fileTurnout hist attrs census)))

/-! ### Relational model of the deduplicator's tie-break

`row_number()` may assign rank 1 to any partition row of minimal
`county_desc`; a run of the query is modelled by a choice function
picking one minimal row per distinct `ncid`. -/

/-- The distinct `ncid`s of an election's vote-event rows. -/
def histNcids (e : List HistRow) : List String := (e.map HistRow.ncid).dedup

/-- `pick` is a valid outcome of the window query when, for every distinct
`ncid`, it picks an input row of that partition whose `county_desc` is
minimal — exactly the rows `row_number()` can rank first under
`ORDER BY county_desc`. -/
def IsMinChoice (e : List HistRow) (pick : String → HistRow) : Prop :=
  ∀ x ∈ histNcids e, pick x ∈ e ∧ (pick x).ncid = x ∧
    ∀ r ∈ e, r.ncid = x → strLeB (pick x).county r.county = true

/-- The deduplicated table produced by one run of the query: the
`(county_desc, ncid)` projection of the picked rows. -/
def choiceOutput (e : List HistRow) (pick : String → HistRow) : List VoteRow :=
  (histNcids e).map (fun x => { county := (pick x).county, ncid := x })

/-- The `(county_desc, ncid)` projection of an `ncvhis_election` row. -/
def projVote (h : HistRow) : VoteRow := { county := h.county, ncid := h.ncid }

/-! ### Concrete example data (the section-8 scenario and small fixtures) -/

/-- The section-8 vote-event log: two rows for voter `A1`, cast in `WAKE`
and `DURHAM`, already filtered to election `11/04/2025` and projected. -/
def ev6 : List VoteRow := [⟨"WAKE", "A1"⟩, ⟨"DURHAM", "A1"⟩]

/-- The section-8 registry: voter `A1` registered in `WAKE`, born 1980. -/
def reg6 : List RegRow :=
  [⟨"A1", some "WAKE", some "DEM", some "W", some "NL", some "M", some "1980"⟩]

/-- The bucket key the section-8 scenario lands in. -/
def key6 : BucketKey :=
  ⟨"2025-11-04", some "WAKE", some "DEM", some "W", some "NL", some "M",
    some "Age 41 - 65"⟩

/-- A second, non-matching bucket key for fixtures. -/
def keyB : BucketKey :=
  ⟨"2025-11-04", some "WAKE", some "REP", some "W", some "NL", some "F",
    some "Age 18 - 25"⟩

/-- A two-bucket denominator fixture: one matched bucket with 2
registrants, one unmatched bucket with 0 registrants. -/
def denW : List DenRow := [⟨key6, 2⟩, ⟨keyB, 0⟩]

/-- A one-bucket numerator fixture. -/
def numW : List NumRow := [⟨key6, 1⟩]

/-- A joined-table fixture: one clean match, one county mismatch, one
join mismatch. -/
def jW : List JoinedRow :=
  [⟨"WAKE", some "WAKE", "A1", none, none, none, none, none⟩,
    ⟨"DURHAM", some "WAKE", "A2", none, none, none, none, none⟩,
    ⟨"WAKE", none, "A3", none, none, none, none, none⟩]

/-- A one-voter deduplicated fixture. -/
def votedW : List VoteRow := [⟨"WAKE", "A1"⟩]

/-- A registry fixture with two rows for the same `ncid`. -/
def attrsW : List RegRow :=
  [⟨"A1", some "WAKE", none, none, none, none, none⟩,
    ⟨"A1", some "DURHAM", none, none, none, none, none⟩]

/-- A vote-event fixture with two rows tying on `(county, ncid)` but
differing in the projected-away label column. -/
def histW : List HistRow :=
  [⟨"WAKE", "11/04/2025", "A1"⟩, ⟨"WAKE", "11/04/2025 GENERAL", "A1"⟩]

/-! ### Order lemmas for the lexicographic comparators -/

/-- Strict list comparison is irreflexive. -/
theorem listLt_irrefl : ∀ (l : List Char), listLt l l = false := by
  intro l
  induction l with
  | nil => rfl
  | cons a as ih => simp [listLt, ih]

/-- Strict list comparison is transitive. -/
theorem listLt_trans : ∀ (a b c : List Char),
    listLt a b = true → listLt b c = true → listLt a c = true := by
  intro a
  induction a with
  | nil =>
    intro b c h1 h2
    cases b with
    | nil => simp [listLt] at h1
    | cons y ys =>
      cases c with
      | nil => simp [listLt] at h2
      | cons z zs => simp [listLt]
  | cons x xs ih =>
    intro b c h1 h2
    cases b with
    | nil => simp [listLt] at h1
    | cons y ys =>
      cases c with
      | nil => simp [listLt] at h2
      | cons z zs =>
        simp only [listLt] at h1 h2 ⊢
        by_cases hxy : x = y
        · subst hxy
          rw [if_pos rfl] at h1
          by_cases hxz : x = z
          · subst hxz
            rw [if_pos rfl] at h2 ⊢
            exact ih ys zs h1 h2
          · rw [if_neg hxz] at h2 ⊢
            exact h2
        · rw [if_neg hxy] at h1
          by_cases hyz : y = z
          · subst hyz
            rw [if_neg hxy]
            exact h1
          · rw [if_neg hyz] at h2
            by_cases hxz : x = z
            · exfalso
              subst hxz
              have hx : x < y := of_decide_eq_true h1
              have hy : y < x := of_decide_eq_true h2
              exact absurd (lt_trans hx hy) (lt_irrefl x)
            · rw [if_neg hxz]
              exact decide_eq_true (lt_trans (of_decide_eq_true h1) (of_decide_eq_true h2))

/-- Strict list comparison is asymmetric. -/
theorem listLt_asymm (a b : List Char) (h : listLt a b = true) : listLt b a = false := by
  cases h2 : listLt b a
  · rfl
  · have := listLt_trans a b a h h2
    simp [listLt_irrefl] at this

/-- Distinct lists compare strictly in one direction or the other. -/
theorem listLt_of_ne : ∀ (a b : List Char), a ≠ b →
    listLt a b = true ∨ listLt b a = true := by
  intro a
  induction a with
  | nil =>
    intro b hb
    cases b with
    | nil => exact absurd rfl hb
    | cons y ys => left; simp [listLt]
  | cons x xs ih =>
    intro b hb
    cases b with
    | nil => right; simp [listLt]
    | cons y ys =>
      by_cases hxy : x = y
      · subst hxy
        have hne : xs ≠ ys := fun he => hb (by rw [he])
        rcases ih ys hne with h | h
        · left; simp [listLt, h]
        · right; simp [listLt, h]
      · rcases lt_or_gt_of_ne hxy with h | h
        · left; simp [listLt, hxy, h]
        · right; simp [listLt, Ne.symm hxy, h]

/-- Equal character data makes equal strings. -/
theorem strData_inj {a b : String} (h : a.data = b.data) : a = b :=
  congrArg String.mk h

/-- The string order is reflexive. -/
theorem strLeB_refl (a : String) : strLeB a a = true := by simp [strLeB]

/-- The string order is transitive. -/
theorem strLeB_trans (a b c : String) (h1 : strLeB a b = true)
    (h2 : strLeB b c = true) : strLeB a c = true := by
  simp only [strLeB, strLtB, Bool.or_eq_true, decide_eq_true_iff] at h1 h2 ⊢
  rcases h1 with h1 | rfl
  · rcases h2 with h2 | rfl
    · exact Or.inl (listLt_trans _ _ _ h1 h2)
    · exact Or.inl h1
  · exact h2

/-- The string order is antisymmetric. -/
theorem strLeB_antisymm (a b : String) (h1 : strLeB a b = true)
    (h2 : strLeB b a = true) : a = b := by
  simp only [strLeB, strLtB, Bool.or_eq_true, decide_eq_true_iff] at h1 h2
  rcases h1 with h1 | rfl
  · rcases h2 with h2 | rfl
    · have := listLt_asymm _ _ h1
      rw [h2] at this
      exact absurd this (by simp)
    · rfl
  · rfl

/-- The string order is total. -/
theorem strLeB_total (a b : String) : (strLeB a b || strLeB b a) = true := by
  by_cases hab : a = b
  · subst hab
    simp [strLeB_refl]
  · have hd : a.data ≠ b.data := fun h => hab (strData_inj h)
    rcases listLt_of_ne _ _ hd with h | h
    · simp [strLeB, strLtB, h]
    · simp [strLeB, strLtB, h]

/-- The binary minimum is below its left argument. -/
theorem strMin_le_left (a b : String) : strLeB (strMin a b) a = true := by
  unfold strMin
  split
  · exact strLeB_refl a
  · next h =>
    have ht := strLeB_total a b
    rw [Bool.eq_false_iff.mpr h] at ht  -- strLeB a b = false? h : ¬ strLeB a b = true
    simpa using ht

/-- The binary minimum is below its right argument. -/
theorem strMin_le_right (a b : String) : strLeB (strMin a b) b = true := by
  unfold strMin
  split
  · next h => exact h
  · exact strLeB_refl b

/-- The minimum of a non-empty list is one of its members. -/
theorem minCounty_mem : ∀ (l : List String), l ≠ [] → minCounty l ∈ l
  | [], h => absurd rfl h
  | [c], _ => by simp [minCounty]
  | c :: c2 :: cs, _ => by
    have ih := minCounty_mem (c2 :: cs) (by simp)
    simp only [minCounty, strMin]
    split
    · exact List.mem_cons_self _ _
    · exact List.mem_cons_of_mem _ ih

/-- The minimum of a list is below every member. -/
theorem minCounty_le : ∀ (l : List String), ∀ c ∈ l, strLeB (minCounty l) c = true
  | [], c, h => absurd h (List.not_mem_nil c)
  | [c0], c, h => by
    rw [List.mem_singleton.mp h]
    simp only [minCounty]
    exact strLeB_refl c0
  | c0 :: c1 :: cs, c, h => by
    simp only [minCounty]
    rcases List.mem_cons.mp h with rfl | hmem
    · exact strMin_le_left _ _
    · exact strLeB_trans _ _ _ (strMin_le_right _ _) (minCounty_le (c1 :: cs) c hmem)

/-! ### Deduplicator lemmas -/

/-- The `ncid` column of the deduplicated table is the distinct-`ncid`
list of the input. -/
theorem dedupVotes_map_ncid (l : List VoteRow) :
    (dedupVotes l).map VoteRow.ncid = (l.map VoteRow.ncid).dedup := by
  unfold dedupVotes
  rw [List.map_map]
  show List.map id ((l.map VoteRow.ncid).dedup) = (l.map VoteRow.ncid).dedup
  exact List.map_id _

/-- Every distinct `ncid` of the input has a non-empty county partition. -/
theorem partCounties_ne_nil {l : List VoteRow} {x : String}
    (hx : x ∈ l.map VoteRow.ncid) :
    (l.filter (fun r => decide (r.ncid = x))).map VoteRow.county ≠ [] := by
  rcases List.mem_map.mp hx with ⟨r, hr, rfl⟩
  have hmem : r ∈ l.filter (fun s => decide (s.ncid = r.ncid)) :=
    List.mem_filter.mpr ⟨hr, by simp⟩
  intro h
  rw [List.map_eq_nil_iff] at h
  rw [h] at hmem
  exact List.not_mem_nil r hmem

/-- Filtering a one-row-per-key list to one key yields exactly that row. -/
theorem filter_map_mk_nodup (g : String → String) :
    ∀ (ks : List String), ks.Nodup → ∀ x ∈ ks,
      ((ks.map (fun y => ({ county := g y, ncid := y } : VoteRow))).filter
        (fun r => decide (r.ncid = x))) = [{ county := g x, ncid := x }] := by
  intro ks
  induction ks with
  | nil => intro _ x hx; exact absurd hx (List.not_mem_nil x)
  | cons y t ih =>
    intro hnd x hx
    have hy : y ∉ t := (List.nodup_cons.mp hnd).1
    have hnd' : t.Nodup := (List.nodup_cons.mp hnd).2
    rcases List.mem_cons.mp hx with rfl | hxt
    · have hnil : ((t.map (fun y => ({ county := g y, ncid := y } : VoteRow))).filter
          (fun r => decide (r.ncid = x))) = [] := by
        apply List.filter_eq_nil_iff.mpr
        intro a ha
        rcases List.mem_map.mp ha with ⟨z, hz, rfl⟩
        simp only [decide_eq_true_iff]
        intro hzx
        exact hy (by rw [← hzx]; exact hz)
      rw [List.map_cons, List.filter_cons, if_pos (by simp), hnil]
    · have hyx : y ≠ x := fun he => hy (he ▸ hxt)
      rw [List.map_cons, List.filter_cons, if_neg (by simp [hyx])]
      exact ih hnd' x hxt

/-- C2: for every vote-event set of one election, the deduplicator emits
exactly one row per distinct `voter_id` (`ncid`): its row count is the
number of distinct ids, its id column is duplicate-free and enumerates the
distinct input ids, every retained row is an input row whose `cast_county`
is lexicographically smallest within its voter's partition, and running
the deduplicator on its own output changes nothing. -/
theorem claim_C2_dedup_one_row_per_voter (l : List VoteRow) :
    (dedupVotes l).length = ((l.map VoteRow.ncid).dedup).length ∧
    (dedupVotes l).map VoteRow.ncid = (l.map VoteRow.ncid).dedup ∧
    ((dedupVotes l).map VoteRow.ncid).Nodup ∧
    (∀ r ∈ dedupVotes l,
      (∃ s ∈ l, s.ncid = r.ncid ∧ s.county = r.county) ∧
      (∀ s ∈ l, s.ncid = r.ncid → strLeB r.county s.county = true)) ∧
    dedupVotes (dedupVotes l) = dedupVotes l := by
  refine ⟨by simp [dedupVotes], dedupVotes_map_ncid l, ?_, ?_, ?_⟩
  · rw [dedupVotes_map_ncid]
    exact List.nodup_dedup _
  · intro r hr
    rcases List.mem_map.mp hr with ⟨x, hxd, rfl⟩
    have hx : x ∈ l.map VoteRow.ncid := List.mem_dedup.mp hxd
    have hPne := partCounties_ne_nil hx
    constructor
    · have hm := minCounty_mem _ hPne
      rcases List.mem_map.mp hm with ⟨s, hsf, hsc⟩
      rcases List.mem_filter.mp hsf with ⟨hsl, hsx⟩
      exact ⟨s, hsl, by simpa using hsx, hsc⟩
    · intro s hsl hsx
      have hsf : s ∈ l.filter (fun r => decide (r.ncid = x)) :=
        List.mem_filter.mpr ⟨hsl, by simpa using hsx⟩
      exact minCounty_le _ _ (List.mem_map_of_mem VoteRow.county hsf)
  · have hnd : ((l.map VoteRow.ncid).dedup).Nodup := List.nodup_dedup _
    have hD : dedupVotes l = ((l.map VoteRow.ncid).dedup).map
        (fun y => ({ county := minCounty ((l.filter
          (fun r => decide (r.ncid = y))).map VoteRow.county), ncid := y } : VoteRow)) := rfl
    conv_lhs => rw [dedupVotes]
    rw [dedupVotes_map_ncid, List.dedup_eq_self.mpr hnd]
    conv_rhs => rw [hD]
    apply List.map_congr_left
    intro x hx
    rw [hD, filter_map_mk_nodup _ _ hnd x hx]
    simp [minCounty]

/-! ### Determinism of the deduplicating window query (relational model) -/

/-- Any valid tie-break choice produces exactly the functional
deduplicated table: the projection of a minimal partition row is
determined even when several rows tie on `county_desc`. -/
theorem choiceOutput_eq_dedup (e : List HistRow) (pick : String → HistRow)
    (h : IsMinChoice e pick) :
    choiceOutput e pick = dedupVotes (e.map projVote) := by
  have hn : (e.map projVote).map VoteRow.ncid = e.map HistRow.ncid := by
    simp [projVote, List.map_map, Function.comp]
  unfold choiceOutput dedupVotes histNcids
  rw [hn]
  apply List.map_congr_left
  intro x hx
  obtain ⟨hmem, hncid, hmin⟩ := h x hx
  have hfilter : (e.map projVote).filter (fun r => decide (r.ncid = x))
      = (e.filter (fun h2 => decide (h2.ncid = x))).map projVote := by
    rw [List.filter_map]
    rfl
  have hP : ((e.map projVote).filter (fun r => decide (r.ncid = x))).map VoteRow.county
      = (e.filter (fun h2 => decide (h2.ncid = x))).map HistRow.county := by
    rw [hfilter]
    simp [List.map_map, projVote, Function.comp]
  have hpickf : pick x ∈ e.filter (fun h2 => decide (h2.ncid = x)) :=
    List.mem_filter.mpr ⟨hmem, by simpa using hncid⟩
  have hpickP : (pick x).county ∈
      ((e.map projVote).filter (fun r => decide (r.ncid = x))).map VoteRow.county := by
    rw [hP]
    exact List.mem_map_of_mem HistRow.county hpickf
  have hle1 : strLeB (minCounty (((e.map projVote).filter
      (fun r => decide (r.ncid = x))).map VoteRow.county)) ((pick x).county) = true :=
    minCounty_le _ _ hpickP
  have hle2 : strLeB ((pick x).county) (minCounty (((e.map projVote).filter
      (fun r => decide (r.ncid = x))).map VoteRow.county)) = true := by
    have hPne : ((e.map projVote).filter (fun r => decide (r.ncid = x))).map VoteRow.county ≠ [] := by
      intro hnil
      rw [hnil] at hpickP
      exact List.not_mem_nil _ hpickP
    have hm := minCounty_mem _ hPne
    rw [hP] at hm
    rcases List.mem_map.mp hm with ⟨h0, h0f, h0c⟩
    rcases List.mem_filter.mp h0f with ⟨h0e, h0x⟩
    rw [hP, ← h0c]
    exact hmin h0 h0e (by simpa using h0x)
  have hcounty := strLeB_antisymm _ _ hle2 hle1
  have hgoal : ({ county := (pick x).county, ncid := x } : VoteRow)
      = { county := minCounty (((e.map projVote).filter
          (fun r => decide (r.ncid = x))).map VoteRow.county), ncid := x } := by
    rw [hcounty]
  exact hgoal

/-- C10: the deduplicator's output is a deterministic function of its
input row set — although the rank-1 row among rows of one `ncid` tying on
`cast_county` is unspecified, all tied rows project to the identical
`(cast_county, ncid)` pair, so any two valid runs of the window query
produce the same deduplicated table (namely the functional one). -/
theorem claim_C10_dedup_run_deterministic (e : List HistRow)
    (pick1 pick2 : String → HistRow)
    (hp1 : IsMinChoice e pick1) (hp2 : IsMinChoice e pick2) :
    choiceOutput e pick1 = choiceOutput e pick2 ∧
    choiceOutput e pick1 = dedupVotes (e.map projVote) := by
  have e1 := choiceOutput_eq_dedup e pick1 hp1
  have e2 := choiceOutput_eq_dedup e pick2 hp2
  exact ⟨e1.trans e2.symm, e1⟩

/-! ### Age Bucketizer lemmas -/

/-- A successfully parsed birth year has a non-empty trimmed form. -/
theorem trim_len_ne_zero_of_toIntOpt {s : String} {b : Int}
    (h : toIntOpt s = some b) : ¬ (trimChars s.data).length = 0 := by
  intro hlen
  have hnil : trimChars s.data = [] := List.length_eq_zero.mp hlen
  simp [toIntOpt, hnil, toNatOpt] at h

/-- On a parseable birth year, the bucketizer reduces to the pure
age-range cascade. -/
theorem ageGroupLabel_parsed {ey : Int} {s : String} {b : Int}
    (h : toIntOpt s = some b) :
    ageGroupLabel ey (some s) =
      if ey - b < 18 then "Age < 18 Or Invalid Birth Dates"
      else if 18 ≤ ey - b ∧ ey - b ≤ 25 then "Age 18 - 25"
      else if 26 ≤ ey - b ∧ ey - b ≤ 40 then "Age 26 - 40"
      else if 41 ≤ ey - b ∧ ey - b ≤ 65 then "Age 41 - 65"
      else "Age Over 66" := by
  simp only [ageGroupLabel]
  rw [if_neg (trim_len_ne_zero_of_toIntOpt h), h]

/-- C3: the age bucketizer evaluates its cases in the stated precedence
order — missing or unparseable birth year first, then under-18, then the
three closed ranges, then over-65 — always returns one of the five fixed
labels, and maps the stated 2025 boundary inputs to the stated buckets. -/
theorem claim_C3_age_bucketizer :
    (∀ (ey : Int) (b : Option String), ageGroupLabel ey b ∈
      ["Age < 18 Or Invalid Birth Dates", "Age 18 - 25", "Age 26 - 40",
        "Age 41 - 65", "Age Over 66"]) ∧
    (∀ ey : Int, ageGroupLabel ey none = "Age < 18 Or Invalid Birth Dates") ∧
    (∀ (ey : Int) (s : String), toIntOpt s = none →
      ageGroupLabel ey (some s) = "Age < 18 Or Invalid Birth Dates") ∧
    (∀ (ey : Int) (s : String) (b : Int), toIntOpt s = some b → ey - b < 18 →
      ageGroupLabel ey (some s) = "Age < 18 Or Invalid Birth Dates") ∧
    (∀ (ey : Int) (s : String) (b : Int), toIntOpt s = some b →
      18 ≤ ey - b → ey - b ≤ 25 → ageGroupLabel ey (some s) = "Age 18 - 25") ∧
    (∀ (ey : Int) (s : String) (b : Int), toIntOpt s = some b →
      26 ≤ ey - b → ey - b ≤ 40 → ageGroupLabel ey (some s) = "Age 26 - 40") ∧
    (∀ (ey : Int) (s : String) (b : Int), toIntOpt s = some b →
      41 ≤ ey - b → ey - b ≤ 65 → ageGroupLabel ey (some s) = "Age 41 - 65") ∧
    (∀ (ey : Int) (s : String) (b : Int), toIntOpt s = some b →
      65 < ey - b → ageGroupLabel ey (some s) = "Age Over 66") ∧
    ageGroupLabel 2025 (some "2007") = "Age 18 - 25" ∧
    ageGroupLabel 2025 (some "2008") = "Age < 18 Or Invalid Birth Dates" ∧
    ageGroupLabel 2025 (some "1959") = "Age Over 66" ∧
    ageGroupLabel 2025 (some "1960") = "Age 41 - 65" ∧
    ageGroupLabel 2025 none = "Age < 18 Or Invalid Birth Dates" := by
  refine ⟨?_, ?_, ?_, ?_, ?_, ?_, ?_, ?_,
    by decide, by decide, by decide, by decide, by decide⟩
  · intro ey b
    cases b with
    | none => simp [ageGroupLabel]
    | some s =>
      unfold ageGroupLabel
      repeat' split
      all_goals simp
  · intro ey
    rfl
  · intro ey s hnone
    simp only [ageGroupLabel]
    split
    · rfl
    · rw [hnone]
  · intro ey s b hsome hlt
    rw [ageGroupLabel_parsed hsome, if_pos hlt]
  · intro ey s b hsome h1 h2
    rw [ageGroupLabel_parsed hsome, if_neg (by omega), if_pos ⟨h1, h2⟩]
  · intro ey s b hsome h1 h2
    rw [ageGroupLabel_parsed hsome, if_neg (by omega), if_neg (by omega),
      if_pos ⟨h1, h2⟩]
  · intro ey s b hsome h1 h2
    rw [ageGroupLabel_parsed hsome, if_neg (by omega), if_neg (by omega),
      if_neg (by omega), if_pos ⟨h1, h2⟩]
  · intro ey s b hsome h1
    rw [ageGroupLabel_parsed hsome, if_neg (by omega), if_neg (by omega),
      if_neg (by omega), if_neg (by omega)]

/-! ### The section-8 end-to-end scenario -/

/-- C6: in the section-8 scenario the deduplicator keeps the `DURHAM` row
for voter `A1`, the joiner reports zero join mismatches and one county
mismatch, the bucketizer assigns `Age 41 - 65` to birth year 1980, the
aggregated numerator is exactly one count of 1 under the `WAKE` (registered
county) bucket key — and in general every aggregated bucket's county is the
registered county of some contributing row, never the cast county. -/
theorem claim_C6_end_to_end_scenario :
    dedupVotes ev6 = [⟨"DURHAM", "A1"⟩] ∧
    joinMismatches (votedJoined (dedupVotes ev6) reg6) = 0 ∧
    countyMismatches (votedJoined (dedupVotes ev6) reg6) = 1 ∧
    ageGroupLabel 2025 (some "1980") = "Age 41 - 65" ∧
    votedAggregated "2025-11-04" 2025 (votedJoined (dedupVotes ev6) reg6) =
      [⟨key6, 1⟩] ∧
    key6.county = some "WAKE" ∧
    (∀ (iso : String) (ey : Int) (j : List JoinedRow),
      ∀ v ∈ votedAggregated iso ey j,
        ∃ r ∈ votedClean j, v.key.county = r.reg_county) := by
  refine ⟨by decide, by decide, by decide, by decide, by decide, by decide, ?_⟩
  intro iso ey j v hv
  simp only [votedAggregated] at hv
  rcases List.mem_map.mp hv with ⟨k, hk, rfl⟩
  have hk2 : k ∈ (votedClean j).map (numKey iso ey) := List.mem_dedup.mp hk
  rcases List.mem_map.mp hk2 with ⟨r, hr, rfl⟩
  exact ⟨r, hr, rfl⟩

/-! ### Reconciler lemmas and the turnout null law -/

/-- Every reconciled row is a denominator row paired with some coalesced
voted count. -/
theorem turnout_mem_mk {den : List DenRow} {num : List NumRow} {r : TurnoutRow}
    (hr : r ∈ turnoutBuckets den num) : ∃ d ∈ den, ∃ c : Nat, r = mkTurnout d c := by
  rcases List.mem_flatMap.mp hr with ⟨d, hd, hrd⟩
  refine ⟨d, hd, ?_⟩
  dsimp only at hrd
  by_cases hms : (num.filter (fun v => keyMatch d.key v.key)).isEmpty = true
  · rw [if_pos hms] at hrd
    exact ⟨0, (List.mem_singleton.mp hrd)⟩
  · rw [if_neg hms] at hrd
    rcases List.mem_map.mp hrd with ⟨v, _, rfl⟩
    exact ⟨v.voted_count, rfl⟩

/-- C1: in every reconciled turnout row the rate is NULL exactly when the
registered count is 0, a positive registered count yields the exact ratio
of voted over registered; every denominator bucket is retained in the
output, and a denominator bucket matching no numerator bucket comes out
with voted count 0. -/
theorem claim_C1_turnout_null_law (den : List DenRow) (num : List NumRow) :
    (∀ r ∈ turnoutBuckets den num,
      (r.turnout_rate = none ↔ r.registered_count = 0) ∧
      (0 < r.registered_count →
        r.turnout_rate = some ((r.voted_count : ℚ) / (r.registered_count : ℚ)))) ∧
    (∀ d ∈ den, ∃ r ∈ turnoutBuckets den num,
      r.key = d.key ∧ r.registered_count = d.registered_count) ∧
    (∀ d ∈ den, (∀ v ∈ num, keyMatch d.key v.key = false) →
      mkTurnout d 0 ∈ turnoutBuckets den num) := by
  refine ⟨?_, ?_, ?_⟩
  · intro r hr
    rcases turnout_mem_mk hr with ⟨d, _, c, rfl⟩
    constructor
    · by_cases h0 : d.registered_count = 0
      · simp [mkTurnout, h0]
      · simp [mkTurnout, h0]
    · intro hpos
      have h0 : ¬ d.registered_count = 0 := by
        simp only [mkTurnout] at hpos
        omega
      simp [mkTurnout, h0]
  · intro d hd
    by_cases hms : (num.filter (fun v => keyMatch d.key v.key)).isEmpty = true
    · refine ⟨mkTurnout d 0, ?_, rfl, rfl⟩
      apply List.mem_flatMap.mpr
      refine ⟨d, hd, ?_⟩
      dsimp only
      rw [if_pos hms]
      exact List.mem_singleton.mpr rfl
    · have hne : num.filter (fun v => keyMatch d.key v.key) ≠ [] := by
        simpa [List.isEmpty_iff] using hms
      rcases List.exists_mem_of_ne_nil _ hne with ⟨v, hv⟩
      refine ⟨mkTurnout d v.voted_count, ?_, rfl, rfl⟩
      apply List.mem_flatMap.mpr
      refine ⟨d, hd, ?_⟩
      dsimp only
      rw [if_neg hms]
      exact List.mem_map_of_mem _ hv
  · intro d hd hnone
    have hms : (num.filter (fun v => keyMatch d.key v.key)) = [] :=
      List.filter_eq_nil_iff.mpr (fun v hv => by rw [hnone v hv]; simp)
    apply List.mem_flatMap.mpr
    refine ⟨d, hd, ?_⟩
    dsimp only
    rw [hms]
    simp

/-! ### QA rate lemmas -/

/-- A filter and its complement split the length of a list. -/
theorem length_filter_not_add {α : Type} (p : α → Bool) (l : List α) :
    (l.filter p).length + (l.filter (fun a => !(p a))).length = l.length := by
  induction l with
  | nil => rfl
  | cons a t ih =>
    cases h : p a with
    | true =>
      simp [List.filter_cons, h]
      omega
    | false =>
      simp [List.filter_cons, h]
      omega

/-- The matched rows and the join mismatches partition the joined table. -/
theorem clean_add_mismatch (j : List JoinedRow) :
    (votedClean j).length + joinMismatches j = totalVoted j := by
  have h := length_filter_not_add (fun r : JoinedRow => r.reg_county.isSome) j
  have hc : j.filter (fun r : JoinedRow => !(r.reg_county.isSome))
      = j.filter (fun r => r.reg_county.isNone) := by
    apply List.filter_congr
    intro r _
    cases r.reg_county <;> rfl
  rw [hc] at h
  exact h

/-- C4: the joiner's diagnostics satisfy the stated rate identities —
`join_mismatch_rate` is mismatches over total (0 when the total is 0),
`county_mismatch_rate` is county mismatches over matched rows (0 when no
row matched), county mismatches are counted only over rows that matched a
registry entry, and are therefore at most the matched-row count. -/
theorem claim_C4_mismatch_rates (j : List JoinedRow) :
    joinMismatches j ≤ totalVoted j ∧
    (totalVoted j = 0 → joinMismatchRate j = 0) ∧
    (totalVoted j ≠ 0 →
      joinMismatchRate j = (joinMismatches j : ℚ) / (totalVoted j : ℚ)) ∧
    (totalVoted j - joinMismatches j = 0 → countyMismatchRate j = 0) ∧
    (totalVoted j - joinMismatches j ≠ 0 →
      countyMismatchRate j =
        (countyMismatches j : ℚ) / ((totalVoted j - joinMismatches j : Nat) : ℚ)) ∧
    countyMismatches j = ((votedClean j).filter countyMismB).length ∧
    countyMismatches j ≤ totalVoted j - joinMismatches j := by
  have hsplit := clean_add_mismatch j
  have hcnt : countyMismatches j = ((votedClean j).filter countyMismB).length := by
    unfold countyMismatches votedClean
    rw [List.filter_filter]
    congr 1
    apply List.filter_congr
    intro r _
    unfold countyMismB
    cases r.reg_county <;> simp
  refine ⟨List.length_filter_le _ _, ?_, ?_, ?_, ?_, hcnt, ?_⟩
  · intro h0
    simp [joinMismatchRate, h0]
  · intro h0
    simp [joinMismatchRate, h0]
  · intro h0
    simp [countyMismatchRate, h0]
  · intro h0
    simp [countyMismatchRate, h0]
  · have hle : ((votedClean j).filter countyMismB).length ≤ (votedClean j).length :=
      List.length_filter_le _ _
    omega

/-! ### Registry fan-out (no first-match-wins on the registry side) -/

/-- Every joined row carries the `ncid` of the left row that produced it. -/
theorem joinRow_ncid (attrs : List RegRow) (v : VoteRow) :
    ∀ r ∈ joinRow attrs v, r.ncid = v.ncid := by
  intro r hr
  unfold joinRow at hr
  dsimp only at hr
  by_cases hms : ((attrs.filter (fun a => decide (a.ncid = v.ncid))).isEmpty) = true
  · rw [if_pos hms] at hr
    rw [List.mem_singleton.mp hr]
  · rw [if_neg hms] at hr
    rcases List.mem_map.mp hr with ⟨a, _, rfl⟩
    rfl

/-- Every left row contributes at least one joined row. -/
theorem one_le_joinRow_length (attrs : List RegRow) (v : VoteRow) :
    1 ≤ (joinRow attrs v).length := by
  unfold joinRow
  dsimp only
  by_cases hms : ((attrs.filter (fun a => decide (a.ncid = v.ncid))).isEmpty) = true
  · rw [if_pos hms]
    simp
  · rw [if_neg hms]
    have hne : attrs.filter (fun a => decide (a.ncid = v.ncid)) ≠ [] := by
      simpa [List.isEmpty_iff] using hms
    rw [List.length_map]
    exact Nat.one_le_iff_ne_zero.mpr (by simpa [List.length_eq_zero] using hne)

/-- A left row with registry matches contributes one joined row per match. -/
theorem joinRow_length_of_matches (attrs : List RegRow) (v : VoteRow)
    (h : attrs.filter (fun a => decide (a.ncid = v.ncid)) ≠ []) :
    (joinRow attrs v).length = (attrs.filter (fun a => decide (a.ncid = v.ncid))).length := by
  unfold joinRow
  dsimp only
  rw [if_neg (by simpa [List.isEmpty_iff] using h)]
  exact List.length_map _ _

/-- Summing a guarded value over a list is summing it over the filter. -/
theorem sum_map_ite_zero {α : Type} (p : α → Bool) (g : α → Nat) :
    ∀ l : List α,
      (l.map (fun a => if p a = true then g a else 0)).sum = ((l.filter p).map g).sum := by
  intro l
  induction l with
  | nil => rfl
  | cons a t ih => cases h : p a <;> simp [List.filter_cons, h, ih]

/-- A pointwise bound of 1 bounds a sum below by the length. -/
theorem length_le_sum_map {α : Type} (g : α → Nat) (l : List α)
    (h : ∀ a ∈ l, 1 ≤ g a) : l.length ≤ (l.map g).sum := by
  have hb := List.length_le_sum_of_one_le (l.map g) (by
    intro i hi
    rcases List.mem_map.mp hi with ⟨a, ha, rfl⟩
    exact h a ha)
  simpa using hb

/-- C9: one-row-per-voter survives the attribute join only for a
duplicate-free registry — when the registry holds `k ≥ 2` rows for a
voter that voted (appearing once among the deduplicated events), the left
join emits `k` rows for that voter and the joined row count strictly
exceeds the deduplicated row count: the join has no first-match-wins
tie-break on the registry side. -/
theorem claim_C9_registry_fanout (voted : List VoteRow) (attrs : List RegRow)
    (x : String) (v : VoteRow) (k : Nat)
    (hv : voted.filter (fun r => decide (r.ncid = x)) = [v])
    (hk : (attrs.filter (fun a => decide (a.ncid = x))).length = k)
    (h2 : 2 ≤ k) :
    ((votedJoined voted attrs).filter (fun r => decide (r.ncid = x))).length = k ∧
    voted.length < totalVoted (votedJoined voted attrs) := by
  have hvmem : v ∈ voted ∧ v.ncid = x := by
    have hm : v ∈ voted.filter (fun r => decide (r.ncid = x)) := by
      rw [hv]; exact List.mem_singleton.mpr rfl
    have hm2 := List.mem_filter.mp hm
    exact ⟨hm2.1, by simpa using hm2.2⟩
  have hvk : (joinRow attrs v).length = k := by
    have hne : attrs.filter (fun a => decide (a.ncid = v.ncid)) ≠ [] := by
      rw [hvmem.2]
      intro hnil
      rw [hnil] at hk
      simp at hk
      omega
    rw [joinRow_length_of_matches attrs v hne, hvmem.2, hk]
  constructor
  · show ((voted.flatMap (joinRow attrs)).filter (fun r => decide (r.ncid = x))).length = k
    rw [List.filter_flatMap, List.length_flatMap]
    have hpt : ∀ v' ∈ voted,
        (List.length ∘ fun a => List.filter (fun r => decide (r.ncid = x)) (joinRow attrs a)) v'
          = (fun v' => if decide (v'.ncid = x) = true then (joinRow attrs v').length else 0) v' := by
      intro v' _
      by_cases hx : v'.ncid = x
      · simp only [Function.comp_apply, hx]
        rw [if_pos (by simp)]
        congr 1
        apply List.filter_eq_self.mpr
        intro r hr
        simp [joinRow_ncid attrs v' r hr, hx]
      · simp only [Function.comp_apply]
        rw [if_neg (by simp [hx])]
        rw [List.filter_eq_nil_iff.mpr (fun r hr => by
          simp [joinRow_ncid attrs v' r hr, hx])]
        rfl
    rw [List.map_congr_left hpt, sum_map_ite_zero, hv]
    simpa using hvk
  · show voted.length < (voted.flatMap (joinRow attrs)).length
    rw [List.length_flatMap]
    rcases List.append_of_mem hvmem.1 with ⟨s, t, rfl⟩
    rw [List.map_append, List.map_cons, List.sum_append, List.sum_cons]
    have hs : s.length ≤ (s.map (List.length ∘ joinRow attrs)).sum :=
      length_le_sum_map _ _ (fun a _ => one_le_joinRow_length attrs a)
    have ht : t.length ≤ (t.map (List.length ∘ joinRow attrs)).sum :=
      length_le_sum_map _ _ (fun a _ => one_le_joinRow_length attrs a)
    have hvk2 : (List.length ∘ joinRow attrs) v = k := hvk
    simp only [List.length_append, List.length_cons]
    omega

/-! ### Conservation of voted counts through the reconciling join -/

/-- SQL equality on nullable columns holds exactly for equal non-NULL
values. -/
theorem sqlEqB_iff (a b : Option String) :
    sqlEqB a b = true ↔ (a = b ∧ b.isSome = true) := by
  cases a <;> cases b <;> simp [sqlEqB]

/-- The join predicate holds exactly for equal keys all of whose nullable
columns are non-NULL. -/
theorem keyMatch_iff (k k' : BucketKey) :
    keyMatch k k' = true ↔ (k = k' ∧ keyTotal k' = true) := by
  cases k with
  | mk e c p r t s a =>
    cases k' with
    | mk e' c' p' r' t' s' a' =>
      simp only [keyMatch, keyTotal, Bool.and_eq_true, decide_eq_true_iff, sqlEqB_iff,
        BucketKey.mk.injEq]
      tauto

/-- Boolean form of the join-predicate characterization. -/
theorem keyMatch_bool (dk vk : BucketKey) :
    keyMatch dk vk = (keyTotal vk && decide (vk = dk)) := by
  rw [Bool.eq_iff_iff, keyMatch_iff, Bool.and_eq_true, decide_eq_true_iff]
  constructor
  · rintro ⟨h1, h2⟩
    exact ⟨h2, h1.symm⟩
  · rintro ⟨h1, h2⟩
    exact ⟨h2.symm, h1⟩

/-- Sums distribute over the pieces of a flat map. -/
theorem sum_flatMap_nat {α : Type} (g : α → List Nat) (l : List α) :
    (l.flatMap g).sum = (l.map (fun a => (g a).sum)).sum := by
  induction l with
  | nil => rfl
  | cons a t ih => simp [List.flatMap_cons, List.sum_append, ih]

/-- The total voted count of the reconciled table is the sum, over
denominator rows, of the voted counts of the numerator rows they match. -/
theorem sumVoted_turnoutBuckets (den : List DenRow) (num : List NumRow) :
    sumVoted (turnoutBuckets den num) =
      (den.map (fun d =>
        ((num.filter (fun v => keyMatch d.key v.key)).map NumRow.voted_count).sum)).sum := by
  unfold sumVoted turnoutBuckets
  rw [List.map_flatMap, sum_flatMap_nat]
  apply congrArg List.sum
  apply List.map_congr_left
  intro d _
  dsimp only
  by_cases hms : ((num.filter (fun v => keyMatch d.key v.key)).isEmpty) = true
  · rw [if_pos hms]
    have : num.filter (fun v => keyMatch d.key v.key) = [] := by
      simpa [List.isEmpty_iff] using hms
    rw [this]
    rfl
  · rw [if_neg hms, List.map_map]
    rfl

/-- Summing over a disjunction of disjoint filters splits the sum. -/
theorem sum_map_filter_or {α : Type} (p q : α → Bool) (g : α → Nat) :
    ∀ (l : List α), (∀ a ∈ l, ¬(p a = true ∧ q a = true)) →
      ((l.filter (fun a => p a || q a)).map g).sum
        = ((l.filter p).map g).sum + ((l.filter q).map g).sum := by
  intro l
  induction l with
  | nil => intro _; rfl
  | cons a t ih =>
    intro hdisj
    have hd := hdisj a (List.mem_cons_self a t)
    have iht := ih (fun b hb => hdisj b (List.mem_cons_of_mem a hb))
    cases hp : p a with
    | true =>
      cases hq : q a with
      | true => exact absurd ⟨hp, hq⟩ hd
      | false =>
        rw [List.filter_cons, if_pos (by simp [hp]), List.filter_cons,
          if_pos (by simp [hp]), List.filter_cons, if_neg (by simp [hq])]
        simp only [List.map_cons, List.sum_cons]
        rw [iht]
        omega
    | false =>
      cases hq : q a with
      | true =>
        rw [List.filter_cons, if_pos (by simp [hq]), List.filter_cons,
          if_neg (by simp [hp]), List.filter_cons, if_pos (by simp [hq])]
        simp only [List.map_cons, List.sum_cons]
        rw [iht]
        omega
      | false =>
        rw [List.filter_cons, if_neg (by simp [hp, hq]), List.filter_cons,
          if_neg (by simp [hp]), List.filter_cons, if_neg (by simp [hq])]
        exact iht

/-- Under duplicate-free denominator keys, summing numerator matches over
denominator rows counts each matched numerator row exactly once. -/
theorem sum_den_matched (num : List NumRow) (g : NumRow → Nat) :
    ∀ (den : List DenRow), (den.map DenRow.key).Nodup →
      (den.map (fun d =>
        ((num.filter (fun v => keyMatch d.key v.key)).map g).sum)).sum
        = ((num.filter (fun v =>
            keyTotal v.key && decide (v.key ∈ den.map DenRow.key))).map g).sum := by
  intro den
  induction den with
  | nil =>
    intro _
    simp
  | cons d t ih =>
    intro hnd
    rw [List.map_cons] at hnd
    have hdk : d.key ∉ t.map DenRow.key := (List.nodup_cons.mp hnd).1
    have iht := ih (List.nodup_cons.mp hnd).2
    rw [List.map_cons, List.sum_cons, iht]
    have hhead : ((num.filter (fun v => keyMatch d.key v.key)).map g).sum
        = ((num.filter (fun v => keyTotal v.key && decide (v.key = d.key))).map g).sum := by
      rw [List.filter_congr (fun v _ => keyMatch_bool d.key v.key)]
    rw [hhead]
    have hcongr : num.filter (fun v =>
          keyTotal v.key && decide (v.key ∈ (d :: t).map DenRow.key))
        = num.filter (fun v => (keyTotal v.key && decide (v.key = d.key))
            || (keyTotal v.key && decide (v.key ∈ t.map DenRow.key))) := by
      apply List.filter_congr
      intro v _
      rw [Bool.eq_iff_iff, List.map_cons]
      simp only [Bool.and_eq_true, Bool.or_eq_true, decide_eq_true_iff, List.mem_cons]
      tauto
    rw [hcongr, sum_map_filter_or _ _ _ num (by
      intro v _
      rintro ⟨ha, hb⟩
      simp only [Bool.and_eq_true, decide_eq_true_iff] at ha hb
      exact hdk (ha.2 ▸ hb.2))]

/-- A sum over a list splits along any filter and its complement. -/
theorem sum_filter_split {α : Type} (p : α → Bool) (g : α → Nat) (l : List α) :
    (l.map g).sum = ((l.filter p).map g).sum
      + ((l.filter (fun a => !(p a))).map g).sum := by
  induction l with
  | nil => rfl
  | cons a t ih =>
    cases h : p a with
    | true =>
      rw [List.map_cons, List.sum_cons, List.filter_cons, if_pos (by simp [h]),
        List.filter_cons, if_neg (by simp [h])]
      simp only [List.map_cons, List.sum_cons]
      omega
    | false =>
      rw [List.map_cons, List.sum_cons, List.filter_cons, if_neg (by simp [h]),
        List.filter_cons, if_pos (by simp [h])]
      simp only [List.map_cons, List.sum_cons]
      omega

/-- The denominator builder's key column is the deduplicated key list of
the kept census rows. -/
theorem voterStatsDenominator_keys (iso lbl : String) (rows : List CensusRow) :
    (voterStatsDenominator iso lbl rows).map DenRow.key
      = ((rows.filter (censusKeep lbl)).map (censusKey iso)).dedup := by
  unfold voterStatsDenominator
  dsimp only
  rw [List.map_map]
  show List.map id _ = _
  exact List.map_id _

/-- C5: for every election, the voted counts of the reconciled turnout
table sum to exactly the voted counts of the aggregated numerator buckets
that have a denominator match; the remaining numerator total is exactly
the missing-denominator diagnostic, so no numerator bucket is silently
absorbed or dropped. -/
theorem claim_C5_conservation (iso lbl : String) (ey : Int)
    (census : List CensusRow) (j : List JoinedRow) :
    sumVoted (turnoutBuckets (voterStatsDenominator iso lbl census)
        (votedAggregated iso ey j)) =
      (((votedAggregated iso ey j).filter (fun v =>
        (voterStatsDenominator iso lbl census).any (fun d => keyMatch d.key v.key))).map
        NumRow.voted_count).sum ∧
    ((votedAggregated iso ey j).map NumRow.voted_count).sum =
      (((votedAggregated iso ey j).filter (fun v =>
        (voterStatsDenominator iso lbl census).any (fun d => keyMatch d.key v.key))).map
        NumRow.voted_count).sum
        + missingVotes (voterStatsDenominator iso lbl census) (votedAggregated iso ey j) := by
  have hnodup : ((voterStatsDenominator iso lbl census).map DenRow.key).Nodup := by
    rw [voterStatsDenominator_keys]
    exact List.nodup_dedup _
  constructor
  · rw [sumVoted_turnoutBuckets,
      sum_den_matched (votedAggregated iso ey j) NumRow.voted_count
        (voterStatsDenominator iso lbl census) hnodup]
    have hpt : ∀ v ∈ votedAggregated iso ey j,
        (keyTotal v.key && decide (v.key ∈
            (voterStatsDenominator iso lbl census).map DenRow.key))
          = (voterStatsDenominator iso lbl census).any (fun d => keyMatch d.key v.key) := by
      intro v _
      rw [Bool.eq_iff_iff, Bool.and_eq_true, decide_eq_true_iff, List.any_eq_true]
      constructor
      · rintro ⟨htot, hmem⟩
        rcases List.mem_map.mp hmem with ⟨d, hd, hkey⟩
        exact ⟨d, hd, (keyMatch_iff d.key v.key).mpr ⟨hkey, htot⟩⟩
      · rintro ⟨d, hd, hm⟩
        rcases (keyMatch_iff d.key v.key).mp hm with ⟨hkey, htot⟩
        exact ⟨htot, List.mem_map.mpr ⟨d, hd, hkey⟩⟩
    rw [List.filter_congr hpt]
  · rw [sum_filter_split (fun v =>
      (voterStatsDenominator iso lbl census).any (fun d => keyMatch d.key v.key))
      NumRow.voted_count (votedAggregated iso ey j)]
    rfl

/-! ### Controller order lemmas -/

/-- The nullable-column comparison is irreflexive. -/
theorem optLtB_irrefl (a : Option String) : optLtB a a = false := by
  cases a with
  | none => rfl
  | some x => exact listLt_irrefl _

/-- The nullable-column comparison is transitive. -/
theorem optLtB_trans (a b c : Option String) (h1 : optLtB a b = true)
    (h2 : optLtB b c = true) : optLtB a c = true := by
  cases a with
  | none => simp [optLtB] at h1
  | some x =>
    cases b with
    | none =>
      cases c with
      | none => simp [optLtB] at h2
      | some z => simp [optLtB] at h2
    | some y =>
      cases c with
      | none => rfl
      | some z =>
        simp only [optLtB] at h1 h2 ⊢
        exact listLt_trans _ _ _ h1 h2

/-- Distinct nullable columns compare strictly in one direction. -/
theorem optLtB_of_ne (a b : Option String) (h : a ≠ b) :
    optLtB a b = true ∨ optLtB b a = true := by
  cases a with
  | none =>
    cases b with
    | none => exact absurd rfl h
    | some y => right; rfl
  | some x =>
    cases b with
    | none => left; rfl
    | some y =>
      have hxy : x ≠ y := fun he => h (by rw [he])
      have hd : x.data ≠ y.data := fun hd2 => hxy (strData_inj hd2)
      rcases listLt_of_ne _ _ hd with hl | hl
      · left; exact hl
      · right; exact hl

/-- The lexicographic row comparison is transitive. -/
theorem lexLeB_trans : ∀ (a b c : List (Option String)),
    lexLeB a b = true → lexLeB b c = true → lexLeB a c = true := by
  intro a
  induction a with
  | nil => intro b c _ _; rfl
  | cons x xs ih =>
    intro b c h1 h2
    cases b with
    | nil => simp [lexLeB] at h1
    | cons y ys =>
      cases c with
      | nil => simp [lexLeB] at h2
      | cons z zs =>
        simp only [lexLeB] at h1 h2 ⊢
        by_cases hxy : x = y
        · subst hxy
          rw [if_pos rfl] at h1
          by_cases hxz : x = z
          · subst hxz
            rw [if_pos rfl] at h2 ⊢
            exact ih ys zs h1 h2
          · rw [if_neg hxz] at h2 ⊢
            exact h2
        · rw [if_neg hxy] at h1
          by_cases hyz : y = z
          · subst hyz
            rw [if_neg hxy]
            exact h1
          · rw [if_neg hyz] at h2
            by_cases hxz : x = z
            · exfalso
              subst hxz
              have hcontra := optLtB_trans _ _ _ h1 h2
              rw [optLtB_irrefl] at hcontra
              exact absurd hcontra (by simp)
            · rw [if_neg hxz]
              exact optLtB_trans _ _ _ h1 h2

/-- The lexicographic row comparison is total. -/
theorem lexLeB_total : ∀ (a b : List (Option String)),
    (lexLeB a b || lexLeB b a) = true := by
  intro a
  induction a with
  | nil => intro b; simp [lexLeB]
  | cons x xs ih =>
    intro b
    cases b with
    | nil => simp [lexLeB]
    | cons y ys =>
      by_cases hxy : x = y
      · subst hxy
        simp only [lexLeB, if_pos rfl]
        exact ih ys
      · rcases optLtB_of_ne x y hxy with h | h
        · simp [lexLeB, hxy, h]
        · simp [lexLeB, Ne.symm hxy, h]

/-- The export row ordering is transitive. -/
theorem rowLeB_trans (a b c : TurnoutRow) (h1 : rowLeB a b = true)
    (h2 : rowLeB b c = true) : rowLeB a c = true :=
  lexLeB_trans _ _ _ h1 h2

/-- The export row ordering is total. -/
theorem rowLeB_total (a b : TurnoutRow) : (rowLeB a b || rowLeB b a) = true :=
  lexLeB_total _ _

/-! ### Insertion sort lemmas -/

/-- Insertion permutes with consing. -/
theorem insertLe_perm {α : Type} (le : α → α → Bool) (a : α) :
    ∀ l : List α, (insertLe le a l).Perm (a :: l) := by
  intro l
  induction l with
  | nil => exact List.Perm.refl _
  | cons b t ih =>
    unfold insertLe
    by_cases h : le a b = true
    · rw [if_pos h]
    · rw [if_neg h]
      exact (ih.cons b).trans (List.Perm.swap a b t)

/-- Sorting permutes the input. -/
theorem sortByB_perm {α : Type} (le : α → α → Bool) :
    ∀ l : List α, (sortByB le l).Perm l := by
  intro l
  induction l with
  | nil => exact List.Perm.refl _
  | cons a t ih =>
    unfold sortByB
    exact (insertLe_perm le a (sortByB le t)).trans (ih.cons a)

/-- Inserting into a sorted list keeps it sorted (for a transitive total
comparator). -/
theorem insertLe_sorted {α : Type} {le : α → α → Bool}
    (htrans : ∀ x y z, le x y = true → le y z = true → le x z = true)
    (htotal : ∀ x y, (le x y || le y x) = true) (a : α) :
    ∀ l : List α, l.Pairwise (fun x y => le x y = true) →
      (insertLe le a l).Pairwise (fun x y => le x y = true) := by
  intro l
  induction l with
  | nil => intro _; exact List.pairwise_singleton _ _
  | cons b t ih =>
    intro hp
    rcases List.pairwise_cons.mp hp with ⟨hbt, hpt⟩
    unfold insertLe
    by_cases h : le a b = true
    · rw [if_pos h]
      apply List.pairwise_cons.mpr
      refine ⟨?_, hp⟩
      intro x hx
      rcases List.mem_cons.mp hx with rfl | hxt
      · exact h
      · exact htrans a b x h (hbt x hxt)
    · rw [if_neg h]
      apply List.pairwise_cons.mpr
      constructor
      · intro x hx
        have hx2 : x ∈ a :: t := (insertLe_perm le a t).mem_iff.mp hx
        rcases List.mem_cons.mp hx2 with rfl | hxt
        · have ht := htotal x b
          rw [Bool.eq_false_iff.mpr h] at ht
          simpa using ht
        · exact hbt x hxt
      · exact ih hpt

/-- Insertion sort sorts (for a transitive total comparator). -/
theorem sortByB_sorted {α : Type} {le : α → α → Bool}
    (htrans : ∀ x y z, le x y = true → le y z = true → le x z = true)
    (htotal : ∀ x y, (le x y || le y x) = true) :
    ∀ l : List α, (sortByB le l).Pairwise (fun x y => le x y = true) := by
  intro l
  induction l with
  | nil => exact List.Pairwise.nil
  | cons a t ih =>
    unfold sortByB
    exact insertLe_sorted htrans htotal a _ ih

/-- The sorted file list is sorted in the string order. -/
theorem sortFiles_sorted (files : List String) :
    (sortFiles files).Pairwise (fun a b => strLeB a b = true) :=
  sortByB_sorted strLeB_trans strLeB_total files

/-- The sorted file list permutes the discovered files. -/
theorem sortFiles_perm (files : List String) : (sortFiles files).Perm files :=
  sortByB_perm strLeB files

/-- Two sorted string lists that permute each other are equal. -/
theorem sorted_perm_eq_strings {l1 l2 : List String} (hp : l1.Perm l2)
    (h1 : l1.Pairwise (fun a b => strLeB a b = true))
    (h2 : l2.Pairwise (fun a b => strLeB a b = true)) : l1 = l2 :=
  List.Perm.eq_of_sorted (fun a b _ _ hab hba => strLeB_antisymm a b hab hba) h1 h2 hp

/-- Erasing an element that contributes nothing leaves a flat map
unchanged. -/
theorem flatMap_erase_of_nil {α β : Type} [DecidableEq α] (g : α → List β) :
    ∀ (l : List α) (b : α), b ∈ l → g b = [] →
      l.flatMap g = (l.erase b).flatMap g := by
  intro l
  induction l with
  | nil => intro b hb _; exact absurd hb (List.not_mem_nil b)
  | cons a t ih =>
    intro b hb hgb
    by_cases hab : a = b
    · subst hab
      rw [List.erase_cons_head, List.flatMap_cons, hgb, List.nil_append]
    · have hmem : b ∈ t := by
        rcases List.mem_cons.mp hb with h | h
        · exact absurd h.symm hab
        · exact h
      rw [List.erase_cons_tail (by simpa using hab), List.flatMap_cons,
        List.flatMap_cons, ih b hmem hgb]

/-- C7: the multi-election controller aborts fatally — producing no
output at all — when no census file matches the discovery pattern; and a
census file whose name carries no 8-digit date token after the
`voter_stats_` prefix is skipped, contributing no rows to any output
while the remaining files are processed exactly as if it were absent. -/
theorem claim_C7_controller_error_handling :
    (∀ (hist : List HistRow) (attrs : List RegRow)
      (census : String → List CensusRow), runAll [] hist attrs census = none) ∧
    (∀ (b : String), parseDateToken b = none →
      ∀ (l1 l2 : List String) (hist : List HistRow) (attrs : List RegRow)
        (census : String → List CensusRow),
        runAll (l1 ++ b :: l2) hist attrs census =
          if l1 ++ l2 = [] then some []
          else runAll (l1 ++ l2) hist attrs census) := by
  constructor
  · intro hist attrs census
    rfl
  · intro b hb l1 l2 hist attrs census
    have hgb : fileTurnout hist attrs census b = [] := by
      unfold fileTurnout
      rw [hb]
    have hne : l1 ++ b :: l2 ≠ [] := by simp
    rw [runAll, if_neg hne]
    have hperm : (sortFiles (l1 ++ b :: l2)).Perm (b :: (l1 ++ l2)) :=
      (sortFiles_perm _).trans List.perm_middle
    have hbmem : b ∈ sortFiles (l1 ++ b :: l2) :=
      hperm.mem_iff.mpr (List.mem_cons_self b _)
    have hstep := flatMap_erase_of_nil (fileTurnout hist attrs census)
      (sortFiles (l1 ++ b :: l2)) b hbmem hgb
    have herase_perm : ((sortFiles (l1 ++ b :: l2)).erase b).Perm (l1 ++ l2) := by
      have hp := hperm.erase b
      rw [List.erase_cons_head] at hp
      exact hp
    by_cases hnil : l1 ++ l2 = []
    · rw [if_pos hnil]
      have herase_nil : (sortFiles (l1 ++ b :: l2)).erase b = [] := by
        rw [hnil] at herase_perm
        exact herase_perm.eq_nil
      rw [hstep, herase_nil]
      rfl
    · rw [if_neg hnil, runAll, if_neg hnil]
      have herase_sorted : ((sortFiles (l1 ++ b :: l2)).erase b).Pairwise
          (fun a b => strLeB a b = true) :=
        List.Pairwise.sublist (List.erase_sublist b _) (sortFiles_sorted (l1 ++ b :: l2))
      have heq : (sortFiles (l1 ++ b :: l2)).erase b = sortFiles (l1 ++ l2) :=
        sorted_perm_eq_strings
          (herase_perm.trans (sortFiles_perm (l1 ++ l2)).symm)
          herase_sorted (sortFiles_sorted _)
      rw [hstep, heq]

/-- C8: elections are processed in the lexical order of the discovered
census file names and the combined table is finally sorted on the seven
export columns, so the controller's output is invariant under any
reordering of the discovered files, and every produced row list is sorted
by the export ordering. -/
theorem claim_C8_processing_order_determinism :
    (∀ files : List String,
      (sortFiles files).Pairwise (fun a b => strLeB a b = true)) ∧
    (∀ (files files' : List String) (hist : List HistRow) (attrs : List RegRow)
      (census : String → List CensusRow), files.Perm files' →
      runAll files hist attrs census = runAll files' hist attrs census) ∧
    (∀ (files : List String) (hist : List HistRow) (attrs : List RegRow)
      (census : String → List CensusRow) (rows : List TurnoutRow),
      runAll files hist attrs census = some rows →
      rows.Pairwise (fun a b => rowLeB a b = true)) := by
  refine ⟨sortFiles_sorted, ?_, ?_⟩
  · intro files files' hist attrs census hp
    have hfeq : sortFiles files = sortFiles files' :=
      sorted_perm_eq_strings
        ((sortFiles_perm files).trans (hp.trans (sortFiles_perm files').symm))
        (sortFiles_sorted files) (sortFiles_sorted files')
    unfold runAll
    by_cases h : files = []
    · subst h
      have h' : files' = [] := hp.symm.eq_nil
      subst h'
      rfl
    · have h' : files' ≠ [] := fun he => h (hp.trans (he ▸ List.Perm.refl _)).eq_nil
      rw [if_neg h, if_neg h', hfeq]
  · intro files hist attrs census rows h
    unfold runAll at h
    by_cases hf : files = []
    · rw [if_pos hf] at h
      exact absurd h (by simp)
    · rw [if_neg hf] at h
      have h2 := Option.some.inj h
      rw [← h2]
      exact sortByB_sorted rowLeB_trans rowLeB_total _

/-! ### Witnesses: the claim theorems applied at concrete inputs -/

/-- Witness for C1 on the two-bucket fixture: the matched bucket is
retained with its registered count, the unmatched zero-registrant bucket
comes out with voted count 0 and a NULL rate. -/
theorem claim_C1_witness :
    (∃ r ∈ turnoutBuckets denW numW, r.key = key6 ∧ r.registered_count = 2) ∧
    mkTurnout ⟨keyB, 0⟩ 0 ∈ turnoutBuckets denW numW ∧
    ((mkTurnout ⟨keyB, 0⟩ 0).turnout_rate = none ↔
      (mkTurnout ⟨keyB, 0⟩ 0).registered_count = 0) := by
  have h := claim_C1_turnout_null_law denW numW
  have h3 : mkTurnout ⟨keyB, 0⟩ 0 ∈ turnoutBuckets denW numW :=
    h.2.2 ⟨keyB, 0⟩ (by decide) (by decide)
  exact ⟨h.2.1 ⟨key6, 2⟩ (by decide), h3, (h.1 _ h3).1⟩

/-- Witness for C2 on the section-8 events: the retained `DURHAM` row is
below the `WAKE` row, and deduplication is idempotent there. -/
theorem claim_C2_witness :
    strLeB "DURHAM" "WAKE" = true ∧
    dedupVotes (dedupVotes ev6) = dedupVotes ev6 := by
  have h := claim_C2_dedup_one_row_per_voter ev6
  refine ⟨?_, h.2.2.2.2⟩
  have h4 := (h.2.2.2.1 ⟨"DURHAM", "A1"⟩ (by decide)).2
  exact h4 ⟨"WAKE", "A1"⟩ (by decide) (by decide)

/-- Witness for C3 at year 2000: an unparseable birth year, an under-18
birth year, and a mid-range birth year hit the stated buckets. -/
theorem claim_C3_witness :
    ageGroupLabel 2000 (some "abc") = "Age < 18 Or Invalid Birth Dates" ∧
    ageGroupLabel 2000 (some "1990") = "Age < 18 Or Invalid Birth Dates" ∧
    ageGroupLabel 2000 (some "1970") = "Age 26 - 40" := by
  have h := claim_C3_age_bucketizer
  exact ⟨h.2.2.1 2000 "abc" (by decide),
    h.2.2.2.1 2000 "1990" 1990 (by decide) (by decide),
    h.2.2.2.2.2.1 2000 "1970" 1970 (by decide) (by decide) (by decide)⟩

/-- Witness for C4 on the three-row fixture: one join mismatch out of
three rows, one county mismatch out of two matched rows. -/
theorem claim_C4_witness :
    joinMismatchRate jW = (1 : ℚ) / 3 ∧
    countyMismatchRate jW = (1 : ℚ) / 2 ∧
    countyMismatches jW ≤ totalVoted jW - joinMismatches jW := by
  have h := claim_C4_mismatch_rates jW
  refine ⟨?_, ?_, h.2.2.2.2.2.2⟩
  · have h3 := h.2.2.1 (by decide)
    have e1 : joinMismatches jW = 1 := by decide
    have e2 : totalVoted jW = 3 := by decide
    rw [h3, e1, e2]
    norm_num
  · have h5 := h.2.2.2.2.1 (by decide)
    have e3 : countyMismatches jW = 1 := by decide
    have e4 : totalVoted jW - joinMismatches jW = 2 := by decide
    rw [h5, e3, e4]
    norm_num

/-- Witness for C6: the section-8 bucket's county is the registered
county of the single clean joined row. -/
theorem claim_C6_witness :
    ∃ r ∈ votedClean (votedJoined (dedupVotes ev6) reg6),
      (⟨key6, 1⟩ : NumRow).key.county = r.reg_county := by
  have h := claim_C6_end_to_end_scenario
  exact h.2.2.2.2.2.2 "2025-11-04" 2025 (votedJoined (dedupVotes ev6) reg6)
    ⟨key6, 1⟩ (by decide)

/-- Witness for C7: an empty discovery set aborts, and a malformed file
name among one well-formed file leaves the run's output unchanged. -/
theorem claim_C7_witness :
    runAll [] [] [] (fun _ => []) = none ∧
    runAll ["voter_stats_20251104.txt", "voter_stats_notadate.txt"] [] []
        (fun _ => []) =
      runAll ["voter_stats_20251104.txt"] [] [] (fun _ => []) := by
  have h := claim_C7_controller_error_handling
  refine ⟨h.1 [] [] _, ?_⟩
  have h2 := h.2 "voter_stats_notadate.txt" (by decide)
    ["voter_stats_20251104.txt"] [] [] [] (fun _ => [])
  simpa using h2

/-- Witness for C8: swapping two discovered file names leaves the run's
output unchanged, and a produced row list is sorted. -/
theorem claim_C8_witness :
    runAll ["b", "a"] [] [] (fun _ => []) = runAll ["a", "b"] [] [] (fun _ => []) ∧
    List.Pairwise (fun x y => rowLeB x y = true) ([] : List TurnoutRow) := by
  have h := claim_C8_processing_order_determinism
  exact ⟨h.2.1 ["b", "a"] ["a", "b"] [] [] (fun _ => []) (by decide),
    h.2.2 ["voter_stats_20251104.txt"] [] [] (fun _ => []) [] (by decide)⟩

/-- Witness for C9: a registry with two rows for voter `A1` fans the
single deduplicated vote event out to two joined rows. -/
theorem claim_C9_witness :
    ((votedJoined votedW attrsW).filter (fun r => decide (r.ncid = "A1"))).length = 2 ∧
    votedW.length < totalVoted (votedJoined votedW attrsW) :=
  claim_C9_registry_fanout votedW attrsW "A1" ⟨"WAKE", "A1"⟩ 2
    (by decide) (by decide) (by decide)

/-- Witness for C10: two runs picking the two distinct tied `WAKE` rows
for voter `A1` produce the same deduplicated table. -/
theorem claim_C10_witness :
    choiceOutput histW (fun _ => ⟨"WAKE", "11/04/2025", "A1"⟩) =
      choiceOutput histW (fun _ => ⟨"WAKE", "11/04/2025 GENERAL", "A1"⟩) ∧
    choiceOutput histW (fun _ => ⟨"WAKE", "11/04/2025", "A1"⟩) =
      dedupVotes (histW.map projVote) :=
  claim_C10_dedup_run_deterministic histW _ _
    (by unfold IsMinChoice; decide) (by unfold IsMinChoice; decide)
